import Mathlib

/-!
Verification of the JWS Compact Serialization implementation (`src/compact.rs`
and `src/none.rs`) against its natural-language specification.

Modelling conventions:
* Rust byte slices (`&[u8]`, `Vec<u8>`) become `List Nat`; where byte-range
  matters a `b < 256` hypothesis is carried.
* `serde_json::Value` becomes the mutual inductive `Json`; JSON objects
  (`serde_json::Map` / `BTreeMap<String, JsonValue>`, default sorted-map
  backend) become `JsonObj`, an association list kept in sorted key order with
  last-write-wins insertion, mirroring B-tree map insertion.
* The JSON codec (an external collaborator of the crate) is modelled by an
  executable serializer and parser. The modelled subset covers objects,
  arrays, strings of ASCII characters with the standard short escapes,
  integer numbers, booleans and null; this covers every behaviour the claims
  and the crate's own tests exercise.
* The base64 crate's URL_SAFE_NO_PAD codec is modelled byte for byte:
  encoding emits the RFC 4648 section 5 alphabet with no padding; decoding
  rejects characters outside the alphabet, lengths of 1 mod 4, and non-zero
  trailing bits.
* Fallible Rust functions returning `Result<T>` become `Except Error T`.
* The `Error` type, the `Signer`/`Verifier` traits, `AvailableHeaders` and
  `parse_required_header_param` live in the crate root, which is not among
  the provided sources; they are modelled from the spec where so marked.
-/

namespace Jws

/-- Rust byte strings (`&[u8]` / `Vec<u8>`) as lists of naturals. -/
abbrev Bytes := List Nat

/-! ### JSON value model -/

mutual
/-- Model of `serde_json::Value` (`JsonValue`). Numbers are modelled as
integers, which covers every number appearing in the sources and claims. -/
inductive Json where
  | null
  | bool (b : Bool)
  | num (n : Int)
  | str (s : String)
  | arr (xs : JsonArr)
  | obj (kvs : JsonObj)
deriving DecidableEq
/-- A JSON array's element list. -/
inductive JsonArr where
  | nil
  | cons (hd : Json) (tl : JsonArr)
deriving DecidableEq
/-- A JSON object: association list of string keys to values, kept in sorted
key order by construction, modelling `serde_json::Map` and
`BTreeMap<String, JsonValue>`. -/
inductive JsonObj where
  | nil
  | cons (k : String) (v : Json) (tl : JsonObj)
deriving DecidableEq
end

/-- `HeaderMap` from the crate root: `BTreeMap<String, JsonValue>`. -/
abbrev HeaderMap := JsonObj

/-- Lexicographic order on character lists by code point; this agrees with
Rust's `String` ordering (byte-wise on UTF-8, which preserves code-point
order). -/
def charsLt : List Char → List Char → Bool
  | [], [] => false
  | [], _ :: _ => true
  | _ :: _, [] => false
  | a :: as, b :: bs =>
    if a.toNat < b.toNat then true
    else if a.toNat = b.toNat then charsLt as bs
    else false

/-- Rust `String` ordering. -/
def strLt (a b : String) : Bool := charsLt a.data b.data

/-- `BTreeMap::insert`: insert at the sorted position, overwriting an
existing binding for the same key (last write wins). -/
def JsonObj.insert (m : JsonObj) (k : String) (v : Json) : JsonObj :=
  match m with
  | .nil => .cons k v .nil
  | .cons k1 v1 tl =>
    if k = k1 then .cons k v tl
    else if strLt k k1 then .cons k v (.cons k1 v1 tl)
    else .cons k1 v1 (tl.insert k v)

/-- `BTreeMap::get`: look up a key. -/
def JsonObj.get (m : JsonObj) (k : String) : Option Json :=
  match m with
  | .nil => none
  | .cons k1 v1 tl => if k = k1 then some v1 else tl.get k

/-! ### Error model

Modelled from the spec: the error taxonomy of spec section 7 (the `Error`
type itself lives in the crate root, which is not among the provided
sources). Each error kind carries a human-readable detail string. -/

/-- Modelled from the spec: the closed set of error kinds (spec section 7). -/
inductive ErrorKind where
  | invalidMessage
  | missingHeaderParam
  | invalidHeaderParamType
  | unsupportedMacAlgorithm
  | invalidSignature
deriving DecidableEq

/-- Modelled from the spec: an error is a kind plus a detail string. -/
structure Error where
  kind : ErrorKind
  message : String
deriving DecidableEq

/-- Constructor used by `compact.rs` for malformed input. -/
def Error.invalid_message (msg : String) : Error := ⟨.invalidMessage, msg⟩

/-- Constructor used by `none.rs` for an `alg` the verifier does not accept.
The detail names the algorithm (spec section 7). -/
def Error.unsupported_mac_algorithm (alg : String) : Error :=
  ⟨.unsupportedMacAlgorithm, alg⟩

/-- Constructor used by `none.rs` for a failed signature check. -/
def Error.invalid_signature (msg : String) : Error := ⟨.invalidSignature, msg⟩

instance {ε α : Type} [DecidableEq ε] [DecidableEq α] : DecidableEq (Except ε α) :=
  fun a b =>
    match a, b with
    | .ok x, .ok y => decidable_of_iff (x = y) (by simp)
    | .error e, .error f => decidable_of_iff (e = f) (by simp)
    | .ok _, .error _ => isFalse (by simp)
    | .error _, .ok _ => isFalse (by simp)

/-! ### base64url (URL_SAFE_NO_PAD) codec, RFC 4648 section 5 -/

/-- The base64url alphabet: index (0..63) to ASCII code. -/
def b64Char (i : Nat) : Nat :=
  if i < 26 then 65 + i
  else if i < 52 then 97 + (i - 26)
  else if i < 62 then 48 + (i - 52)
  else if i = 62 then 45
  else 95

/-- Inverse of the alphabet: ASCII code to index, `none` outside the
alphabet (in particular for the padding character 61). -/
def b64Index (c : Nat) : Option Nat :=
  if 65 ≤ c ∧ c ≤ 90 then some (c - 65)
  else if 97 ≤ c ∧ c ≤ 122 then some (c - 97 + 26)
  else if 48 ≤ c ∧ c ≤ 57 then some (c - 48 + 52)
  else if c = 45 then some 62
  else if c = 95 then some 63
  else none

/-- `base64::encode_config(_, URL_SAFE_NO_PAD)`: three input bytes per four
output characters, with a two or three character tail and no padding. -/
def b64encode : Bytes → Bytes
  | [] => []
  | [a] => [b64Char (a / 4), b64Char (a % 4 * 16)]
  | [a, b] => [b64Char (a / 4), b64Char (a % 4 * 16 + b / 16), b64Char (b % 16 * 4)]
  | a :: b :: c :: rest =>
    b64Char (a / 4) :: b64Char (a % 4 * 16 + b / 16) ::
    b64Char (b % 16 * 4 + c / 64) :: b64Char (c % 64) :: b64encode rest

/-- `base64::decode_config(_, URL_SAFE_NO_PAD)`: strict decoding; fails on a
character outside the alphabet, on input length 1 mod 4, and on non-zero
trailing bits in the final character. -/
def b64decode : Bytes → Option Bytes
  | [] => some []
  | [_] => none
  | [c1, c2] => do
    let i1 ← b64Index c1
    let i2 ← b64Index c2
    if i2 % 16 = 0 then some [i1 * 4 + i2 / 16] else none
  | [c1, c2, c3] => do
    let i1 ← b64Index c1
    let i2 ← b64Index c2
    let i3 ← b64Index c3
    if i3 % 4 = 0 then
      some [i1 * 4 + i2 / 16, i2 % 16 * 16 + i3 / 4]
    else none
  | c1 :: c2 :: c3 :: c4 :: rest => do
    let i1 ← b64Index c1
    let i2 ← b64Index c2
    let i3 ← b64Index c3
    let i4 ← b64Index c4
    let tail ← b64decode rest
    some ((i1 * 4 + i2 / 16) :: (i2 % 16 * 16 + i3 / 4) :: (i3 % 4 * 64 + i4) :: tail)

/-! ### JSON serializer (model of `serde_json::to_vec`) -/

/-- Lowercase hexadecimal digit, as in serde_json's escape table. -/
def hexDigit (d : Nat) : Nat := if d < 10 then 48 + d else 87 + d

/-- UTF-8 bytes of a code point. The `% 8` on the four-byte lead is the
identity for every valid code point (below 0x110000) and only keeps the
byte in range on the unreachable inputs. -/
def utf8Bytes (n : Nat) : List Nat :=
  if n < 128 then [n]
  else if n < 2048 then [192 + n / 64, 128 + n % 64]
  else if n < 65536 then [224 + n / 4096, 128 + n / 64 % 64, 128 + n % 64]
  else [240 + n / 262144 % 8, 128 + n / 4096 % 64, 128 + n / 64 % 64, 128 + n % 64]

/-- serde_json's string escaping: short escapes for quote, backslash and the
five named control characters, `\u00xx` for other control characters, all
other characters emitted as UTF-8. -/
def escapeChar (c : Char) : List Nat :=
  if c.toNat = 34 then [92, 34]
  else if c.toNat = 92 then [92, 92]
  else if c.toNat = 8 then [92, 98]
  else if c.toNat = 9 then [92, 116]
  else if c.toNat = 10 then [92, 110]
  else if c.toNat = 12 then [92, 102]
  else if c.toNat = 13 then [92, 114]
  else if c.toNat < 32 then
    [92, 117, 48, 48, hexDigit (c.toNat / 16), hexDigit (c.toNat % 16)]
  else utf8Bytes c.toNat

/-- Escape every character of a string body. -/
def escapeString (cs : List Char) : List Nat := (cs.map escapeChar).flatten

/-- A serialized JSON string: quote, escaped body, quote. -/
def quotedString (s : String) : List Nat := 34 :: (escapeString s.data ++ [34])

/-- Most-significant-first decimal digit extraction; the fuel is at least
the digit count whenever it is at least `n`. -/
def natDigitsAux : Nat → Nat → List Nat → List Nat
  | 0, _, acc => acc
  | fuel+1, n, acc =>
    if n < 10 then (48 + n) :: acc
    else natDigitsAux fuel (n / 10) ((48 + n % 10) :: acc)

/-- Decimal digits of a natural number as ASCII bytes. -/
def natBytes (n : Nat) : List Nat := natDigitsAux (n + 1) n []

/-- A serialized JSON integer. -/
def intSerialize (n : Int) : List Nat :=
  if n < 0 then 45 :: natBytes n.natAbs else natBytes n.natAbs

mutual
/-- `serde_json::to_vec`: compact serialization, no inserted whitespace;
object keys are emitted in the map's (sorted) order. -/
def jsonSerialize : Json → List Nat
  | .null => [110, 117, 108, 108]
  | .bool true => [116, 114, 117, 101]
  | .bool false => [102, 97, 108, 115, 101]
  | .num n => intSerialize n
  | .str s => quotedString s
  | .arr xs => 91 :: (serializeArrBody xs ++ [93])
  | .obj kvs => 123 :: (serializeObjBody kvs ++ [125])
/-- Comma-separated serialized array elements. -/
def serializeArrBody : JsonArr → List Nat
  | .nil => []
  | .cons x .nil => jsonSerialize x
  | .cons x (.cons y tl) => jsonSerialize x ++ 44 :: serializeArrBody (.cons y tl)
/-- Comma-separated serialized `key:value` object members. -/
def serializeObjBody : JsonObj → List Nat
  | .nil => []
  | .cons k v .nil => quotedString k ++ 58 :: jsonSerialize v
  | .cons k v (.cons k1 v1 tl) =>
    (quotedString k ++ 58 :: jsonSerialize v) ++ 44 :: serializeObjBody (.cons k1 v1 tl)
end

/-! ### JSON parser (model of `serde_json::from_slice`) -/

/-- Skip JSON whitespace. -/
def skipWs : List Nat → List Nat
  | [] => []
  | b :: rest => if b = 32 ∨ b = 9 ∨ b = 10 ∨ b = 13 then skipWs rest else b :: rest

/-- The character named by a short escape sequence (modelled subset:
`\uXXXX` escapes are not accepted). -/
def escChar (e : Nat) : Option Char :=
  if e = 34 then some (Char.ofNat 34)
  else if e = 92 then some (Char.ofNat 92)
  else if e = 47 then some (Char.ofNat 47)
  else if e = 98 then some (Char.ofNat 8)
  else if e = 102 then some (Char.ofNat 12)
  else if e = 110 then some (Char.ofNat 10)
  else if e = 114 then some (Char.ofNat 13)
  else if e = 116 then some (Char.ofNat 9)
  else none

/-- Parse a string body up to the closing quote (modelled subset: printable
ASCII characters and short escapes). Returns the characters and the rest of
the input. -/
def parseStrChars : List Nat → Option (List Char × List Nat)
  | [] => none
  | 34 :: rest => some ([], rest)
  | 92 :: rest =>
    match rest with
    | [] => none
    | e :: rest1 =>
      match escChar e, parseStrChars rest1 with
      | some c, some (cs, r) => some (c :: cs, r)
      | _, _ => none
  | b :: rest =>
    if 32 ≤ b ∧ b < 127 then
      match parseStrChars rest with
      | some (cs, r) => some (Char.ofNat b :: cs, r)
      | none => none
    else none

/-- Take a maximal run of ASCII digits from the front of the input. -/
def takeDigits : List Nat → List Nat × List Nat
  | [] => ([], [])
  | b :: rest =>
    if 48 ≤ b ∧ b ≤ 57 then
      let (ds, r) := takeDigits rest
      (b :: ds, r)
    else ([], b :: rest)

/-- Value of a run of ASCII digits. -/
def digitsToNat (ds : List Nat) : Nat := ds.foldl (fun acc d => acc * 10 + (d - 48)) 0

/-- Parse a JSON number (modelled subset: optional minus sign and a run of
digits; fractions and exponents are not accepted). -/
def parseNum (input : List Nat) : Option (Json × List Nat) :=
  match input with
  | 45 :: rest =>
    match takeDigits rest with
    | ([], _) => none
    | (ds, r) => some (.num (-(digitsToNat ds : Int)), r)
  | _ =>
    match takeDigits input with
    | ([], _) => none
    | (ds, r) => some (.num (digitsToNat ds), r)

mutual
/-- Parse one JSON value; `fuel` bounds the recursion depth and is set from
the input length at the top level. Returns the value and the rest of the
input. -/
def parseValue : Nat → List Nat → Option (Json × List Nat)
  | 0, _ => none
  | fuel+1, input =>
    match skipWs input with
    | 110 :: 117 :: 108 :: 108 :: rest => some (.null, rest)
    | 116 :: 114 :: 117 :: 101 :: rest => some (.bool true, rest)
    | 102 :: 97 :: 108 :: 115 :: 101 :: rest => some (.bool false, rest)
    | 34 :: rest =>
      match parseStrChars rest with
      | some (cs, r) => some (.str (String.mk cs), r)
      | none => none
    | 91 :: rest =>
      match skipWs rest with
      | 93 :: r => some (.arr .nil, r)
      | r =>
        match parseArrayItems fuel r with
        | some (xs, r1) => some (.arr xs, r1)
        | none => none
    | 123 :: rest =>
      match skipWs rest with
      | 125 :: r => some (.obj .nil, r)
      | r =>
        match parseObjItems fuel .nil r with
        | some (kvs, r1) => some (.obj kvs, r1)
        | none => none
    | other => parseNum other
/-- Parse the elements of a non-empty array up to the closing bracket. -/
def parseArrayItems : Nat → List Nat → Option (JsonArr × List Nat)
  | 0, _ => none
  | fuel+1, input =>
    match parseValue fuel input with
    | none => none
    | some (v, r) =>
      match skipWs r with
      | 44 :: r1 =>
        match parseArrayItems fuel r1 with
        | some (tl, r2) => some (.cons v tl, r2)
        | none => none
      | 93 :: r1 => some (.cons v .nil, r1)
      | _ => none
/-- Parse the members of a non-empty object up to the closing brace,
inserting each binding into the accumulated map as it is parsed, so a
duplicate key silently overwrites the earlier one (last write wins), as a
B-tree-map-backed JSON object does. -/
def parseObjItems : Nat → JsonObj → List Nat → Option (JsonObj × List Nat)
  | 0, _, _ => none
  | fuel+1, acc, input =>
    match skipWs input with
    | 34 :: rest =>
      match parseStrChars rest with
      | none => none
      | some (cs, r) =>
        match skipWs r with
        | 58 :: r1 =>
          match parseValue fuel r1 with
          | none => none
          | some (v, r2) =>
            match skipWs r2 with
            | 44 :: r3 => parseObjItems fuel (acc.insert (String.mk cs) v) r3
            | 125 :: r3 => some (acc.insert (String.mk cs) v, r3)
            | _ => none
        | _ => none
    | _ => none
end

/-- `serde_json::from_slice`: parse one JSON value and require only
whitespace to follow. -/
def parseJson (data : List Nat) : Option Json :=
  match parseValue (data.length + 1) data with
  | some (v, rest) => if skipWs rest = [] then some v else none
  | none => none

/-! ### compact.rs -/

/-- `compact.rs::decode_base64_url`: base64url-decode one field, reporting
an `InvalidMessage` error naming the field on failure. -/
def decode_base64_url (value : Bytes) (field_name : String) : Except Error Bytes :=
  match b64decode value with
  | some x => .ok x
  | none => .error (Error.invalid_message ("invalid base64 in " ++ field_name))

/-- `compact.rs::decode_json` at type `JsonValue`: parse one field as JSON,
reporting an `InvalidMessage` error naming the field on failure. -/
def decode_json_value (value : Bytes) (field_name : String) : Except Error Json :=
  match parseJson value with
  | some x => .ok x
  | none => .error (Error.invalid_message ("invalid JSON in " ++ field_name))

/-- `compact.rs::decode_json` at type `BTreeMap<String, JsonValue>`: as
`decode_json_value` but deserialization additionally requires the top-level
value to be a JSON object. -/
def decode_json_object (value : Bytes) (field_name : String) : Except Error HeaderMap :=
  match parseJson value with
  | some (.obj kvs) => .ok kvs
  | _ => .error (Error.invalid_message ("invalid JSON in " ++ field_name))

/-- `compact.rs::Message`: a decoded, unverified message. -/
structure Message where
  header : HeaderMap
  payload : Json
deriving DecidableEq

/-- `compact.rs::EncodedMessage`: owned buffer plus the header length. -/
structure EncodedMessage where
  data : Bytes
  header_length : Nat
deriving DecidableEq

/-- `compact.rs::EncodedSignedMessage`: owned buffer plus header and payload
lengths. -/
structure EncodedSignedMessage where
  data : Bytes
  header_length : Nat
  payload_length : Nat
deriving DecidableEq

/-- `compact.rs::CompactSerializedParts`: the three still-encoded segments. -/
structure CompactSerializedParts where
  header : Bytes
  payload : Bytes
  signature : Bytes
deriving DecidableEq

/-- `EncodedMessage::header`: `&data[..header_length]`. -/
def EncodedMessage.header (m : EncodedMessage) : Bytes :=
  m.data.take m.header_length

/-- `EncodedMessage::payload`: `&data[header_length + 1..]`. -/
def EncodedMessage.payload (m : EncodedMessage) : Bytes :=
  m.data.drop (m.header_length + 1)

/-- `EncodedSignedMessage::header`: `&data[..header_length]`. -/
def EncodedSignedMessage.header (m : EncodedSignedMessage) : Bytes :=
  m.data.take m.header_length

/-- `EncodedSignedMessage::payload_start`. -/
def EncodedSignedMessage.payload_start (m : EncodedSignedMessage) : Nat :=
  m.header_length + 1

/-- `EncodedSignedMessage::payload_end`. -/
def EncodedSignedMessage.payload_end (m : EncodedSignedMessage) : Nat :=
  m.payload_start + m.payload_length

/-- `EncodedSignedMessage::signature_start`. -/
def EncodedSignedMessage.signature_start (m : EncodedSignedMessage) : Nat :=
  m.payload_end + 1

/-- `EncodedSignedMessage::payload`: `&data[payload_start..payload_end]`. -/
def EncodedSignedMessage.payload (m : EncodedSignedMessage) : Bytes :=
  (m.data.drop m.payload_start).take m.payload_length

/-- `EncodedSignedMessage::signature`: `&data[signature_start..]`. -/
def EncodedSignedMessage.signature (m : EncodedSignedMessage) : Bytes :=
  m.data.drop m.signature_start

/-- `EncodedSignedMessage::parts`. -/
def EncodedSignedMessage.parts (m : EncodedSignedMessage) : CompactSerializedParts :=
  ⟨m.header, m.payload, m.signature⟩

/-- Split a byte string at the first `.` (byte 46), if any: the Rust slice
`split` iterator's single step. -/
def breakDot : Bytes → Option (Bytes × Bytes)
  | [] => none
  | b :: rest =>
    if b = 46 then some ([], rest)
    else
      match breakDot rest with
      | none => none
      | some (pre, post) => some (b :: pre, post)

/-- Rust's `splitn(n, is-dot)` on byte slices: at most `n` pieces; the last
piece keeps any remaining separators. -/
def splitnDot : Nat → Bytes → List Bytes
  | 0, _ => []
  | 1, data => [data]
  | n+2, data =>
    match breakDot data with
    | none => [data]
    | some (pre, post) => pre :: splitnDot (n+1) post

/-- `compact.rs::split_encoded_parts`: `data.splitn(4, is-dot)`, demanding
exactly a header, a payload and a signature and nothing after. -/
def split_encoded_parts (data : Bytes) : Except Error CompactSerializedParts :=
  match splitnDot 4 data with
  | [] => .error (Error.invalid_message "encoded message does not contain a header")
  | [_] => .error (Error.invalid_message "encoded message does not contain a payload")
  | [_, _] => .error (Error.invalid_message "encoded message does not contain a signature")
  | [header, payload, signature] => .ok ⟨header, payload, signature⟩
  | _ :: _ :: _ :: _ :: _ =>
    .error (Error.invalid_message "encoded message contains an additional field after the signature")

/-- `compact.rs::base64_len`: unpadded base64 output length for a given
input length, multiply by 4 and divide by 3 rounding up. -/
def base64_len (input_len : Nat) : Nat :=
  (input_len * 4 + 2) / 3

/-- `Message::decode_header_payload`: base64url-decode header and payload,
then JSON-decode the header as an object and the payload as a value. -/
def Message.decode_header_payload (header payload : Bytes) : Except Error Message := do
  let header1 ← decode_base64_url header "header"
  let payload1 ← decode_base64_url payload "payload"
  let header2 ← decode_json_object header1 "header"
  let payload2 ← decode_json_value payload1 "payload"
  .ok ⟨header2, payload2⟩

/-- `CompactSerializedParts::decode`: decode header and payload into a
`Message` and base64url-decode the signature. -/
def CompactSerializedParts.decode (p : CompactSerializedParts) :
    Except Error (Message × Bytes) := do
  let message ← Message.decode_header_payload p.header p.payload
  let signature ← decode_base64_url p.signature "signature"
  .ok (message, signature)

/-- `compact.rs::decode`: split, then decode the parts. -/
def decode (data : Bytes) : Except Error (Message × Bytes) := do
  let parts ← split_encoded_parts data
  parts.decode

/-- `AvailableHeaders` from the crate root. Modelled from the spec: a tagged
union over which headers are present; compact serialization uses the
protected-only variant. -/
inductive AvailableHeaders (α : Type) where
  | protectedOnly (h : α)
  | unprotectedOnly (h : α)
  | both (prot unprot : α)

/-- The `Signer` trait from the crate root, modelled from the spec (section
4.3) and from its use in `compact.rs`: `set_header_params` may rewrite the
(protected) header and may fail; `compute_mac` maps the two encoded byte
slices to signature bytes. The Rust in-place header mutation becomes
returning the new header. -/
structure Signer where
  set_header_params : HeaderMap → Except Error HeaderMap
  compute_mac : Bytes → Bytes → Except Error Bytes

/-- The `Verifier` trait from the crate root, modelled from the spec
(section 4.3) and from its use in `compact.rs`: receives the decoded
headers, the two original encoded byte slices and the decoded signature
bytes. -/
structure Verifier where
  verify : AvailableHeaders HeaderMap → Bytes → Bytes → Bytes → Except Error Unit

/-- `Message::encode`: serialize header and payload to JSON,
base64url-encode each, join with one dot. (The Rust pre-allocation via
`base64_len` only sizes the buffer and has no semantic effect.) -/
def Message.encode (m : Message) : EncodedMessage :=
  let header_json := jsonSerialize (.obj m.header)
  let payload_json := jsonSerialize m.payload
  let buffer := b64encode header_json
  let header_length := buffer.length
  ⟨buffer ++ 46 :: b64encode payload_json, header_length⟩

/-- `Message::encode_sign`: let the signer rewrite the header, encode, sign
the two encoded slices, then push a dot and append the signature bytes to
the buffer. The Rust method mutates `self.header`; the updated message is
returned alongside the result. -/
def Message.encode_sign (m : Message) (signer : Signer) :
    Except Error (Message × EncodedSignedMessage) := do
  let header ← signer.set_header_params m.header
  let m1 : Message := ⟨header, m.payload⟩
  let encoded := m1.encode
  let signature ← signer.compute_mac encoded.header encoded.payload
  let header_length := encoded.header.length
  let payload_length := encoded.payload.length
  let data := encoded.data ++ 46 :: signature
  .ok (m1, ⟨data, header_length, payload_length⟩)

/-- `compact.rs::decode_verify`: split, decode, then hand the decoded
header, the original encoded header and payload slices and the decoded
signature to the verifier; return the message only on success. -/
def decode_verify (data : Bytes) (verifier : Verifier) : Except Error Message := do
  let parts ← split_encoded_parts data
  let (message, signature) ← parts.decode
  let _ ← verifier.verify (.protectedOnly message.header) parts.header parts.payload signature
  .ok message

/-! ### none.rs -/

/-- Modelled from the spec (section 4.2): deserializing a header parameter
at type `&str` requires a JSON string value; any other type is a
type-mismatch error naming the parameter. -/
def expectStringParam (v : Json) (name : String) : Except Error String :=
  match v with
  | .str s => .ok s
  | _ => .error ⟨.invalidHeaderParamType, name⟩

/-- Modelled from the spec (section 4.2): `parse_required_header_param` at
type `&str` looks the parameter up in the protected header first, then the
unprotected one; absence is a missing-parameter error naming the parameter,
and a non-string value is a type-mismatch error. -/
def parse_required_header_param (prot unprot : Option HeaderMap) (name : String) :
    Except Error String :=
  match (match prot with
         | some h => h.get name
         | none => none) with
  | some v => expectStringParam v name
  | none =>
    match (match unprot with
           | some h => h.get name
           | none => none) with
    | some v => expectStringParam v name
    | none => .error ⟨.missingHeaderParam, name⟩

/-- `none.rs::NoneVerifier::verify`: require `alg == "none"` and an empty
signature. -/
def NoneVerifier.verify (prot unprot : Option HeaderMap)
    (_encoded_header _encoded_payload signature : Bytes) : Except Error Unit := do
  let algorithm ← parse_required_header_param prot unprot "alg"
  if algorithm ≠ "none" then
    .error (Error.unsupported_mac_algorithm algorithm)
  else if signature ≠ [] then
    .error (Error.invalid_signature "")
  else
    .ok ()

/-- `none.rs::NoneSigner` packaged as a `Signer`: sets `alg` to `"none"`
and returns an empty signature. -/
def noneSigner : Signer :=
  ⟨fun h => .ok (h.insert "alg" (.str "none")), fun _ _ => .ok []⟩

/-- A signer whose MAC is the single byte 255; used to exhibit how
`encode_sign` embeds signature bytes in the token. -/
def rawSigner : Signer := ⟨fun h => .ok h, fun _ _ => .ok [255]⟩

/-- A verifier accepting every input; used to exhibit which data
`decode_verify` hands to the verifier. -/
def acceptAll : Verifier := ⟨fun _ _ _ _ => .ok ()⟩

/-! ## Theorems

### base64url codec lemmas -/

theorem b64Char_ne_dot (i : Nat) : b64Char i ≠ 46 := by
  unfold b64Char; split <;> try omega
  split <;> try omega
  split <;> try omega
  split <;> omega

theorem b64Char_ne_pad (i : Nat) : b64Char i ≠ 61 := by
  unfold b64Char; split <;> try omega
  split <;> try omega
  split <;> try omega
  split <;> omega

theorem b64Index_b64Char : ∀ i < 64, b64Index (b64Char i) = some i := by decide

theorem b64encode_length (bs : Bytes) : (b64encode bs).length = base64_len bs.length := by
  induction bs using b64encode.induct with
  | case1 => simp [b64encode, base64_len]
  | case2 a => simp [b64encode, base64_len]
  | case3 a b => simp [b64encode, base64_len]
  | case4 a b c rest ih => simp [b64encode, base64_len, ih]; omega

theorem not_dot_b64encode (bs : Bytes) : 46 ∉ b64encode bs := by
  induction bs using b64encode.induct with
  | case1 => simp [b64encode]
  | case2 a => simp [b64encode]; exact ⟨b64Char_ne_dot _ |>.symm, b64Char_ne_dot _ |>.symm⟩
  | case3 a b =>
    simp [b64encode]
    exact ⟨(b64Char_ne_dot _).symm, (b64Char_ne_dot _).symm, (b64Char_ne_dot _).symm⟩
  | case4 a b c rest ih =>
    simp [b64encode]
    refine ⟨(b64Char_ne_dot _).symm, (b64Char_ne_dot _).symm, (b64Char_ne_dot _).symm,
      (b64Char_ne_dot _).symm, ?_⟩
    intro h; exact ih h

theorem not_pad_b64encode (bs : Bytes) : 61 ∉ b64encode bs := by
  induction bs using b64encode.induct with
  | case1 => simp [b64encode]
  | case2 a => simp [b64encode]; exact ⟨b64Char_ne_pad _ |>.symm, b64Char_ne_pad _ |>.symm⟩
  | case3 a b =>
    simp [b64encode]
    exact ⟨(b64Char_ne_pad _).symm, (b64Char_ne_pad _).symm, (b64Char_ne_pad _).symm⟩
  | case4 a b c rest ih =>
    simp [b64encode]
    refine ⟨(b64Char_ne_pad _).symm, (b64Char_ne_pad _).symm, (b64Char_ne_pad _).symm,
      (b64Char_ne_pad _).symm, ?_⟩
    intro h; exact ih h

theorem b64decode_b64encode (bs : Bytes) (h : ∀ b ∈ bs, b < 256) :
    b64decode (b64encode bs) = some bs := by
  induction bs using b64encode.induct with
  | case1 => rfl
  | case2 a =>
    have ha : a < 256 := h a (by simp)
    simp only [b64encode, b64decode]
    rw [b64Index_b64Char _ (by omega), b64Index_b64Char _ (by omega)]
    simp only [Option.bind_eq_bind, Option.some_bind]
    have hz : a % 4 * 16 % 16 = 0 := by omega
    simp [hz]
    omega
  | case3 a b =>
    have ha : a < 256 := h a (by simp)
    have hb : b < 256 := h b (by simp)
    simp only [b64encode, b64decode]
    rw [b64Index_b64Char _ (by omega), b64Index_b64Char _ (by omega),
      b64Index_b64Char _ (by omega)]
    simp only [Option.bind_eq_bind, Option.some_bind]
    have hz : b % 16 * 4 % 4 = 0 := by omega
    simp [hz]
    constructor <;> omega
  | case4 a b c rest ih =>
    have ha : a < 256 := h a (by simp)
    have hb : b < 256 := h b (by simp)
    have hc : c < 256 := h c (by simp)
    have hrest : ∀ x ∈ rest, x < 256 := fun x hx => h x (by simp [hx])
    simp only [b64encode, b64decode]
    rw [b64Index_b64Char _ (by omega), b64Index_b64Char _ (by omega),
      b64Index_b64Char _ (by omega), b64Index_b64Char _ (by omega)]
    simp only [Option.bind_eq_bind, Option.some_bind]
    rw [ih hrest]
    simp
    refine ⟨by omega, by omega, by omega⟩

/-! ### Splitting lemmas -/

theorem breakDot_of_not_mem (l : Bytes) (h : 46 ∉ l) : breakDot l = none := by
  induction l with
  | nil => rfl
  | cons b rest ih =>
    simp only [List.mem_cons] at h
    push_neg at h
    unfold breakDot
    rw [if_neg (by omega), ih h.2]

theorem breakDot_append (a rest : Bytes) (h : 46 ∉ a) :
    breakDot (a ++ 46 :: rest) = some (a, rest) := by
  induction a with
  | nil => simp [breakDot]
  | cons b tl ih =>
    simp only [List.mem_cons] at h
    push_neg at h
    simp only [List.cons_append]
    unfold breakDot
    rw [if_neg (by omega), ih h.2]

theorem exists_breakDot (l : Bytes) (h : 46 ∈ l) :
    ∃ a rest, 46 ∉ a ∧ l = a ++ 46 :: rest := by
  induction l with
  | nil => cases h
  | cons b tl ih =>
    by_cases hb : b = 46
    · exact ⟨[], tl, by simp, by simp [hb]⟩
    · have htl : 46 ∈ tl := by
        rcases List.mem_cons.mp h with h1 | h1
        · omega
        · exact h1
      obtain ⟨a, rest, ha, heq⟩ := ih htl
      refine ⟨b :: a, rest, ?_, by simp [heq]⟩
      simp only [List.mem_cons]
      push_neg
      exact ⟨by omega, ha⟩

theorem split_encoded_parts_append (a b c : Bytes)
    (ha : 46 ∉ a) (hb : 46 ∉ b) (hc : 46 ∉ c) :
    split_encoded_parts (a ++ 46 :: (b ++ 46 :: c)) = .ok ⟨a, b, c⟩ := by
  have h4 : splitnDot 4 (a ++ 46 :: (b ++ 46 :: c)) = [a, b, c] := by
    show (match breakDot (a ++ 46 :: (b ++ 46 :: c)) with
      | none => [a ++ 46 :: (b ++ 46 :: c)]
      | some (pre, post) => pre :: splitnDot 3 post) = [a, b, c]
    rw [breakDot_append _ _ ha]
    show a :: (match breakDot (b ++ 46 :: c) with
      | none => [b ++ 46 :: c]
      | some (pre, post) => pre :: splitnDot 2 post) = [a, b, c]
    rw [breakDot_append _ _ hb]
    show a :: b :: (match breakDot c with
      | none => [c]
      | some (pre, post) => pre :: splitnDot 1 post) = [a, b, c]
    rw [breakDot_of_not_mem _ hc]
  unfold split_encoded_parts
  rw [h4]

theorem count_eq_zero_of_not_mem (l : Bytes) (h : 46 ∉ l) : l.count 46 = 0 :=
  List.count_eq_zero.mpr h

theorem split_encoded_parts_count_ne_two (data : Bytes) (h : data.count 46 ≠ 2) :
    ∃ e, split_encoded_parts data = .error e ∧ e.kind = .invalidMessage := by
  by_cases h0 : 46 ∈ data
  · obtain ⟨a, r1, ha, rfl⟩ := exists_breakDot data h0
    by_cases h1 : 46 ∈ r1
    · obtain ⟨b, r2, hb, rfl⟩ := exists_breakDot r1 h1
      by_cases h2 : 46 ∈ r2
      · obtain ⟨c, r3, hc, rfl⟩ := exists_breakDot r2 h2
        have h4 : splitnDot 4 (a ++ 46 :: (b ++ 46 :: (c ++ 46 :: r3)))
            = [a, b, c, r3] := by
          show (match breakDot (a ++ 46 :: (b ++ 46 :: (c ++ 46 :: r3))) with
            | none => [a ++ 46 :: (b ++ 46 :: (c ++ 46 :: r3))]
            | some (pre, post) => pre :: splitnDot 3 post) = [a, b, c, r3]
          rw [breakDot_append _ _ ha]
          show a :: (match breakDot (b ++ 46 :: (c ++ 46 :: r3)) with
            | none => [b ++ 46 :: (c ++ 46 :: r3)]
            | some (pre, post) => pre :: splitnDot 2 post) = [a, b, c, r3]
          rw [breakDot_append _ _ hb]
          show a :: b :: (match breakDot (c ++ 46 :: r3) with
            | none => [c ++ 46 :: r3]
            | some (pre, post) => pre :: splitnDot 1 post) = [a, b, c, r3]
          rw [breakDot_append _ _ hc]
          rfl
        refine ⟨Error.invalid_message
          "encoded message contains an additional field after the signature", ?_, rfl⟩
        unfold split_encoded_parts
        rw [h4]
      · exfalso
        apply h
        simp [List.count_append, count_eq_zero_of_not_mem _ ha,
          count_eq_zero_of_not_mem _ hb, count_eq_zero_of_not_mem _ h2]
    · have h4 : splitnDot 4 (a ++ 46 :: r1) = [a, r1] := by
        show (match breakDot (a ++ 46 :: r1) with
          | none => [a ++ 46 :: r1]
          | some (pre, post) => pre :: splitnDot 3 post) = [a, r1]
        rw [breakDot_append _ _ ha]
        show a :: (match breakDot r1 with
          | none => [r1]
          | some (pre, post) => pre :: splitnDot 2 post) = [a, r1]
        rw [breakDot_of_not_mem _ h1]
      refine ⟨Error.invalid_message "encoded message does not contain a signature", ?_, rfl⟩
      unfold split_encoded_parts
      rw [h4]
  · have h4 : splitnDot 4 data = [data] := by
      show (match breakDot data with
        | none => [data]
        | some (pre, post) => pre :: splitnDot 3 post) = [data]
      rw [breakDot_of_not_mem _ h0]
    refine ⟨Error.invalid_message "encoded message does not contain a payload", ?_, rfl⟩
    unfold split_encoded_parts
    rw [h4]

/-- C3: `split_encoded_parts` splits exactly at the two ASCII dot bytes,
returning the delimited substrings unchanged (empty ones included), and any
input whose dot count is not two yields an `InvalidMessage` error. -/
theorem split_encoded_parts_spec (data : Bytes) :
    (∀ a b c : Bytes, 46 ∉ a → 46 ∉ b → 46 ∉ c →
        data = a ++ 46 :: (b ++ 46 :: c) →
        split_encoded_parts data = .ok ⟨a, b, c⟩)
    ∧ (data.count 46 ≠ 2 →
        ∃ e, split_encoded_parts data = .error e ∧ e.kind = .invalidMessage) := by
  constructor
  · intro a b c ha hb hc heq
    subst heq
    exact split_encoded_parts_append a b c ha hb hc
  · exact split_encoded_parts_count_ne_two data

/-- C3 witness: the concrete token `a.b.c` splits into its three pieces, and
a dotless input is rejected with an `InvalidMessage` error. -/
theorem split_encoded_parts_spec_witness :
    split_encoded_parts [97, 46, 98, 46, 99] = .ok ⟨[97], [98], [99]⟩
    ∧ ∃ e, split_encoded_parts [97, 97] = .error e ∧ e.kind = .invalidMessage :=
  ⟨(split_encoded_parts_spec [97, 46, 98, 46, 99]).1 [97] [98] [99]
      (by decide) (by decide) (by decide) rfl,
    (split_encoded_parts_spec [97, 97]).2 (by decide)⟩

/-- C9: `base64_len` is exactly the ceiling of `4n/3` (the unique `k` with
`4n ≤ 3k < 4n + 3`), it is the exact output length of the unpadded base64url
encoding of any `n`-byte input, and the encoder never emits the padding
character `=` (byte 61). -/
theorem base64_len_spec (n : Nat) (bs : Bytes) (h : bs.length = n) :
    (4 * n ≤ 3 * base64_len n ∧ 3 * base64_len n < 4 * n + 3)
    ∧ (b64encode bs).length = base64_len n
    ∧ 61 ∉ b64encode bs := by
  subst h
  refine ⟨⟨?_, ?_⟩, b64encode_length bs, not_pad_b64encode bs⟩
  · unfold base64_len; omega
  · unfold base64_len; omega

/-- C9 witness: the five-byte input encodes to `base64_len 5 = 7` characters
with no padding. -/
theorem base64_len_spec_witness :
    (4 * 5 ≤ 3 * base64_len 5 ∧ 3 * base64_len 5 < 4 * 5 + 3)
    ∧ (b64encode [0, 1, 2, 3, 4]).length = base64_len 5
    ∧ 61 ∉ b64encode [0, 1, 2, 3, 4] :=
  base64_len_spec 5 [0, 1, 2, 3, 4] (by decide)

/-! ### Decode-path lemmas -/

theorem ok_bind {ε α β : Type} (f : α → Except ε β) (a : α) :
    (Except.ok a : Except ε α) >>= f = f a := rfl

theorem error_bind {ε α β : Type} (f : α → Except ε β) (e : ε) :
    (Except.error e : Except ε α) >>= f = .error e := rfl

theorem decode_base64_url_error (v : Bytes) (f : String) (e : Error)
    (h : decode_base64_url v f = .error e) :
    e = Error.invalid_message ("invalid base64 in " ++ f) := by
  unfold decode_base64_url at h
  cases hb : b64decode v <;> rw [hb] at h
  · exact (Except.error.injEq _ _ ▸ h).symm
  · cases h

theorem decode_json_value_error (v : Bytes) (f : String) (e : Error)
    (h : decode_json_value v f = .error e) :
    e = Error.invalid_message ("invalid JSON in " ++ f) := by
  unfold decode_json_value at h
  cases hb : parseJson v <;> rw [hb] at h
  · exact (Except.error.injEq _ _ ▸ h).symm
  · cases h

theorem decode_json_object_error (v : Bytes) (f : String) (e : Error)
    (h : decode_json_object v f = .error e) :
    e = Error.invalid_message ("invalid JSON in " ++ f) := by
  unfold decode_json_object at h
  cases hb : parseJson v <;> rw [hb] at h
  · exact (Except.error.injEq _ _ ▸ h).symm
  · rename_i v1
    cases v1 <;> simp only [Except.error.injEq] at h <;> first
      | exact h.symm
      | cases h

theorem parts_decode_error_shape (p : CompactSerializedParts) (e : Error)
    (h : p.decode = .error e) :
    e.kind = .invalidMessage
    ∧ ∃ f, (f = "header" ∨ f = "payload" ∨ f = "signature")
        ∧ (e.message = "invalid base64 in " ++ f
           ∨ e.message = "invalid JSON in " ++ f) := by
  unfold CompactSerializedParts.decode Message.decode_header_payload at h
  cases h1 : decode_base64_url p.header "header" with
  | error e1 =>
    rw [h1] at h
    simp only [error_bind] at h
    cases h
    have he := decode_base64_url_error _ _ _ h1
    subst he
    exact ⟨rfl, "header", Or.inl rfl, Or.inl rfl⟩
  | ok hb =>
    rw [h1] at h
    simp only [ok_bind] at h
    cases h2 : decode_base64_url p.payload "payload" with
    | error e2 =>
      rw [h2] at h
      simp only [error_bind] at h
      cases h
      have he := decode_base64_url_error _ _ _ h2
      subst he
      exact ⟨rfl, "payload", Or.inr (Or.inl rfl), Or.inl rfl⟩
    | ok pb =>
      rw [h2] at h
      simp only [ok_bind] at h
      cases h3 : decode_json_object hb "header" with
      | error e3 =>
        rw [h3] at h
        simp only [error_bind] at h
        cases h
        have he := decode_json_object_error _ _ _ h3
        subst he
        exact ⟨rfl, "header", Or.inl rfl, Or.inr rfl⟩
      | ok H =>
        rw [h3] at h
        simp only [ok_bind] at h
        cases h4 : decode_json_value pb "payload" with
        | error e4 =>
          rw [h4] at h
          simp only [error_bind] at h
          cases h
          have he := decode_json_value_error _ _ _ h4
          subst he
          exact ⟨rfl, "payload", Or.inr (Or.inl rfl), Or.inr rfl⟩
        | ok P =>
          rw [h4] at h
          simp only [ok_bind] at h
          cases h5 : decode_base64_url p.signature "signature" with
          | error e5 =>
            rw [h5] at h
            simp only [error_bind] at h
            cases h
            have he := decode_base64_url_error _ _ _ h5
            subst he
            exact ⟨rfl, "signature", Or.inr (Or.inr rfl), Or.inl rfl⟩
          | ok sb =>
            rw [h5] at h
            simp only [ok_bind] at h
            cases h

/-- C7: every base64url or JSON decoding failure inside `decode` yields an
`InvalidMessage` error whose detail names the failing field (header, payload
or signature), never a generic error. -/
theorem decode_error_names_field (data : Bytes) (p : CompactSerializedParts) (e : Error)
    (hs : split_encoded_parts data = .ok p) (hd : decode data = .error e) :
    e.kind = .invalidMessage
    ∧ ∃ f, (f = "header" ∨ f = "payload" ∨ f = "signature")
        ∧ (e.message = "invalid base64 in " ++ f
           ∨ e.message = "invalid JSON in " ++ f) := by
  unfold decode at hd
  rw [hs, ok_bind] at hd
  exact parts_decode_error_shape p e hd

/-- C7 witness: the token `e30.eA.` (header `je30je` is valid base64 of a
JSON object, payload decodes to the non-JSON byte `x`) fails naming the
payload field. -/
theorem decode_error_names_field_witness :
    ErrorKind.invalidMessage = ErrorKind.invalidMessage
    ∧ ∃ f, (f = "header" ∨ f = "payload" ∨ f = "signature")
        ∧ ("invalid JSON in payload" = "invalid base64 in " ++ f
           ∨ "invalid JSON in payload" = "invalid JSON in " ++ f) :=
  decode_error_names_field [101, 51, 48, 46, 101, 65, 46]
    ⟨[101, 51, 48], [101, 65], []⟩
    (Error.invalid_message "invalid JSON in payload") (by decide) (by decide)

/-- C10: whenever any segment fails base64url decoding or JSON parsing, the
result of `decode_verify` is that `InvalidMessage` error for every verifier
whatsoever, so the verifier is never consulted on a structurally malformed
token and even an accept-everything verifier cannot make it succeed. -/
theorem decode_verify_malformed (data : Bytes) (v : Verifier)
    (p : CompactSerializedParts) (e : Error)
    (hs : split_encoded_parts data = .ok p) (hd : p.decode = .error e) :
    decode_verify data v = .error e ∧ e.kind = .invalidMessage := by
  constructor
  · unfold decode_verify
    rw [hs, ok_bind, hd, error_bind]
  · exact (parts_decode_error_shape p e hd).1

/-- C10 witness: on the token `e30.eA.` with a non-JSON payload, even the
accept-everything verifier yields the payload decode error. -/
theorem decode_verify_malformed_witness :
    decode_verify [101, 51, 48, 46, 101, 65, 46] acceptAll
      = .error (Error.invalid_message "invalid JSON in payload")
    ∧ (Error.invalid_message "invalid JSON in payload").kind = .invalidMessage :=
  decode_verify_malformed [101, 51, 48, 46, 101, 65, 46] acceptAll
    ⟨[101, 51, 48], [101, 65], []⟩
    (Error.invalid_message "invalid JSON in payload") (by decide) (by decide)

/-- C2: `decode_verify` hands the verifier the original encoded header and
payload slices exactly as delimited in the input together with the decoded
signature bytes, returns the decoded message exactly when the verifier
succeeds, and otherwise returns the verifier's error unchanged. -/
theorem decode_verify_spec (v : Verifier) (a b c : Bytes) (m : Message) (s : Bytes)
    (ha : 46 ∉ a) (hb : 46 ∉ b) (hc : 46 ∉ c)
    (hdec : CompactSerializedParts.decode ⟨a, b, c⟩ = .ok (m, s)) :
    decode_verify (a ++ 46 :: (b ++ 46 :: c)) v
      = match v.verify (.protectedOnly m.header) a b s with
        | .ok _ => .ok m
        | .error e => .error e := by
  unfold decode_verify
  rw [split_encoded_parts_append a b c ha hb hc, ok_bind, hdec, ok_bind]
  show (v.verify (.protectedOnly m.header) a b s >>= fun _ => .ok m)
    = match v.verify (.protectedOnly m.header) a b s with
      | .ok _ => .ok m
      | .error e => .error e
  cases v.verify (.protectedOnly m.header) a b s <;> rfl

/-- C2 witness: on the token `e30.bnVsbA.` the accept-everything verifier is
called with the original slices and the message is returned. -/
theorem decode_verify_spec_witness :
    decode_verify ([101, 51, 48] ++ 46 :: ([98, 110, 86, 115, 98, 65] ++ 46 :: []))
        acceptAll
      = match acceptAll.verify (.protectedOnly JsonObj.nil)
          [101, 51, 48] [98, 110, 86, 115, 98, 65] [] with
        | .ok _ => .ok (⟨JsonObj.nil, Json.null⟩ : Message)
        | .error e => .error e :=
  decode_verify_spec acceptAll [101, 51, 48] [98, 110, 86, 115, 98, 65] []
    ⟨JsonObj.nil, Json.null⟩ [] (by decide) (by decide) (by decide) (by decide)

/-! ### Buffer slicing lemmas -/

theorem take_len_of_append_cons (a : Bytes) (x : Nat) (b : Bytes) :
    (a ++ x :: b).take a.length = a :=
  List.take_left a (x :: b)

theorem drop_len_succ_of_append_cons (a : Bytes) (x : Nat) (b : Bytes) :
    (a ++ x :: b).drop (a.length + 1) = b := by
  have h : a ++ x :: b = (a ++ [x]) ++ b := by simp
  have hl : (a ++ [x]).length = a.length + 1 := by simp
  rw [h, ← hl]
  exact List.drop_left _ _

theorem encode_data_eq (m : Message) :
    (Message.encode m).data
      = b64encode (jsonSerialize (.obj m.header))
        ++ 46 :: b64encode (jsonSerialize m.payload) := rfl

theorem encode_header_length_eq (m : Message) :
    (Message.encode m).header_length
      = (b64encode (jsonSerialize (.obj m.header))).length := rfl

theorem encode_header_eq (m : Message) :
    (Message.encode m).header = b64encode (jsonSerialize (.obj m.header)) := by
  show ((Message.encode m).data).take (Message.encode m).header_length
    = b64encode (jsonSerialize (.obj m.header))
  rw [encode_data_eq, encode_header_length_eq]
  exact take_len_of_append_cons _ _ _

theorem encode_payload_eq (m : Message) :
    (Message.encode m).payload = b64encode (jsonSerialize m.payload) := by
  show ((Message.encode m).data).drop ((Message.encode m).header_length + 1)
    = b64encode (jsonSerialize m.payload)
  rw [encode_data_eq, encode_header_length_eq]
  exact drop_len_succ_of_append_cons _ _ _

theorem encode_sign_ok_shape (m : Message) (sg : Signer) (m1 : Message)
    (e : EncodedSignedMessage) (h : Message.encode_sign m sg = .ok (m1, e)) :
    ∃ hd sig, sg.set_header_params m.header = .ok hd
      ∧ m1 = ⟨hd, m.payload⟩
      ∧ sg.compute_mac (Message.encode m1).header (Message.encode m1).payload = .ok sig
      ∧ e = ⟨(Message.encode m1).data ++ 46 :: sig,
          (Message.encode m1).header.length, (Message.encode m1).payload.length⟩ := by
  unfold Message.encode_sign at h
  cases h1 : sg.set_header_params m.header with
  | error e1 =>
    rw [h1] at h
    simp only [error_bind] at h
    cases h
  | ok hd =>
    rw [h1] at h
    simp only [ok_bind] at h
    cases h2 : sg.compute_mac (Message.encode ⟨hd, m.payload⟩).header
        (Message.encode ⟨hd, m.payload⟩).payload with
    | error e2 =>
      rw [h2] at h
      simp only [error_bind] at h
      cases h
    | ok sig =>
      rw [h2] at h
      simp only [ok_bind, Except.ok.injEq, Prod.mk.injEq] at h
      obtain ⟨hm, he⟩ := h
      subst hm
      exact ⟨hd, sig, rfl, rfl, h2, he.symm⟩

/-- C8: the buffers produced by the encode path always consist of the
header slice, one dot byte and the payload slice (and, for a signed
message, one more dot byte and the signature slice), where each slice is
the one the stored offsets recover. -/
theorem encoded_offsets_invariant (m : Message) (sg : Signer) (m1 : Message)
    (e : EncodedSignedMessage) (h : Message.encode_sign m sg = .ok (m1, e)) :
    (Message.encode m).data
      = (Message.encode m).header ++ 46 :: (Message.encode m).payload
    ∧ e.data = e.header ++ 46 :: (e.payload ++ 46 :: e.signature) := by
  constructor
  · rw [encode_data_eq, encode_header_eq, encode_payload_eq]
  · obtain ⟨hd, sig, _, hm, _, he⟩ := encode_sign_ok_shape m sg m1 e h
    subst hm
    subst he
    rw [encode_data_eq, encode_header_eq, encode_payload_eq]
    set b64h := b64encode (jsonSerialize (.obj hd)) with hb64h
    set b64p := b64encode (jsonSerialize m.payload) with hb64p
    have hdata : (b64h ++ 46 :: b64p) ++ 46 :: sig
        = b64h ++ 46 :: (b64p ++ 46 :: sig) := by simp
    have hh : EncodedSignedMessage.header
        ⟨(b64h ++ 46 :: b64p) ++ 46 :: sig, b64h.length, b64p.length⟩ = b64h := by
      show ((b64h ++ 46 :: b64p) ++ 46 :: sig).take b64h.length = b64h
      rw [hdata]
      exact take_len_of_append_cons _ _ _
    have hp : EncodedSignedMessage.payload
        ⟨(b64h ++ 46 :: b64p) ++ 46 :: sig, b64h.length, b64p.length⟩ = b64p := by
      show (((b64h ++ 46 :: b64p) ++ 46 :: sig).drop (b64h.length + 1)).take b64p.length
        = b64p
      rw [hdata, drop_len_succ_of_append_cons]
      exact take_len_of_append_cons _ _ _
    have hs : EncodedSignedMessage.signature
        ⟨(b64h ++ 46 :: b64p) ++ 46 :: sig, b64h.length, b64p.length⟩ = sig := by
      show ((b64h ++ 46 :: b64p) ++ 46 :: sig).drop (b64h.length + 1 + b64p.length + 1)
        = sig
      have h2 : (b64h ++ 46 :: b64p) ++ 46 :: sig
          = (b64h ++ 46 :: b64p) ++ [46] ++ sig := by simp
      have hl : ((b64h ++ 46 :: b64p) ++ [46]).length
          = b64h.length + 1 + b64p.length + 1 := by simp; omega
      rw [h2, ← hl]
      exact List.drop_left _ _
    rw [hh, hp, hs]
    exact hdata

/-- C8 witness: for the message with empty header and null payload and the
one-byte-MAC signer, both buffer equations hold on the concrete output. -/
theorem encoded_offsets_invariant_witness :
    (Message.encode ⟨JsonObj.nil, Json.null⟩).data
      = (Message.encode ⟨JsonObj.nil, Json.null⟩).header
        ++ 46 :: (Message.encode ⟨JsonObj.nil, Json.null⟩).payload
    ∧ (⟨[101, 51, 48, 46, 98, 110, 86, 115, 98, 65, 46, 255], 3, 6⟩
        : EncodedSignedMessage).data
      = (⟨[101, 51, 48, 46, 98, 110, 86, 115, 98, 65, 46, 255], 3, 6⟩
          : EncodedSignedMessage).header
        ++ 46 :: ((⟨[101, 51, 48, 46, 98, 110, 86, 115, 98, 65, 46, 255], 3, 6⟩
            : EncodedSignedMessage).payload
          ++ 46 :: (⟨[101, 51, 48, 46, 98, 110, 86, 115, 98, 65, 46, 255], 3, 6⟩
              : EncodedSignedMessage).signature) :=
  encoded_offsets_invariant ⟨JsonObj.nil, Json.null⟩ rawSigner ⟨JsonObj.nil, Json.null⟩
    ⟨[101, 51, 48, 46, 98, 110, 86, 115, 98, 65, 46, 255], 3, 6⟩ (by decide)

/-! ### The none algorithm -/

/-- C5: when the `alg` header parameter is present as a string `a`, the
none-verifier rejects `a ≠ "none"` with an unsupported-algorithm error
naming it, rejects a non-empty signature under `alg = "none"` with an
invalid-signature error, and succeeds exactly when `a = "none"` and the
signature is empty. -/
theorem none_verifier_spec (prot unprot : Option HeaderMap)
    (eh ep sig : Bytes) (a : String)
    (h : parse_required_header_param prot unprot "alg" = .ok a) :
    (a ≠ "none" → NoneVerifier.verify prot unprot eh ep sig
        = .error (Error.unsupported_mac_algorithm a))
    ∧ (a = "none" → sig ≠ [] → NoneVerifier.verify prot unprot eh ep sig
        = .error (Error.invalid_signature ""))
    ∧ (NoneVerifier.verify prot unprot eh ep sig = .ok ()
        ↔ a = "none" ∧ sig = []) := by
  have hv : NoneVerifier.verify prot unprot eh ep sig
      = if a ≠ "none" then .error (Error.unsupported_mac_algorithm a)
        else if sig ≠ [] then .error (Error.invalid_signature "")
        else .ok () := by
    unfold NoneVerifier.verify
    rw [h]
    rfl
  refine ⟨?_, ?_, ?_⟩
  · intro hne
    rw [hv, if_pos hne]
  · intro hea hs
    rw [hv, if_neg (by simp [hea]), if_pos hs]
  · rw [hv]
    by_cases hea : a = "none"
    · by_cases hs : sig = []
      · simp [hea, hs]
      · simp [hea, hs]
    · simp [hea]

/-- C5 witness: with a protected header declaring `alg: none` and an empty
signature, verification succeeds; the error cases are vacuously checked at
this input through the same instantiation. -/
theorem none_verifier_spec_witness :
    ("none" ≠ "none" →
        NoneVerifier.verify (some (JsonObj.cons "alg" (Json.str "none") JsonObj.nil))
          none [] [] [] = .error (Error.unsupported_mac_algorithm "none"))
    ∧ ("none" = "none" → ([] : Bytes) ≠ [] →
        NoneVerifier.verify (some (JsonObj.cons "alg" (Json.str "none") JsonObj.nil))
          none [] [] [] = .error (Error.invalid_signature ""))
    ∧ (NoneVerifier.verify (some (JsonObj.cons "alg" (Json.str "none") JsonObj.nil))
          none [] [] [] = .ok ()
        ↔ "none" = "none" ∧ ([] : Bytes) = []) :=
  none_verifier_spec (some (JsonObj.cons "alg" (Json.str "none") JsonObj.nil))
    none [] [] [] "none" (by decide)

/-! ### The raw-signature defect of encode_sign -/

/-- C1 (divergence): at the message with empty header and null payload and a
signer whose MAC is the single byte 255, `encode_sign` produces the buffer
`e30.bnVsbA.` followed by the raw byte 255, which differs from appending
the base64url encoding `_w` of the signature, and the crate's own `decode`
rejects the produced token as invalid base64 in the signature field. -/
theorem encode_sign_appends_raw_signature :
    Message.encode_sign ⟨JsonObj.nil, Json.null⟩ rawSigner
      = .ok (⟨JsonObj.nil, Json.null⟩,
          ⟨[101, 51, 48, 46, 98, 110, 86, 115, 98, 65, 46, 255], 3, 6⟩)
    ∧ b64encode [255] = [95, 119]
    ∧ ([101, 51, 48, 46, 98, 110, 86, 115, 98, 65, 46, 255] : Bytes)
        ≠ (Message.encode ⟨JsonObj.nil, Json.null⟩).data ++ 46 :: b64encode [255]
    ∧ decode [101, 51, 48, 46, 98, 110, 86, 115, 98, 65, 46, 255]
      = .error (Error.invalid_message "invalid base64 in signature") :=
  ⟨by decide, by decide, by decide, by decide⟩

/-! ### Payload JSON validation in decode -/

/-- C4 counterexample: the token `e30.eA.` has three valid base64url
segments and its header decodes to the JSON object byte string, yet
`decode` fails, because the decoded payload byte `x` is not valid JSON. -/
theorem decode_requires_json_payload_cex :
    decode_base64_url [101, 51, 48] "header" = .ok [123, 125]
    ∧ decode_json_object [123, 125] "header" = .ok JsonObj.nil
    ∧ decode_base64_url [101, 65] "payload" = .ok [120]
    ∧ decode_base64_url [] "signature" = .ok []
    ∧ decode [101, 51, 48, 46, 101, 65, 46]
      = .error (Error.invalid_message "invalid JSON in payload") :=
  ⟨by decide, by decide, by decide, by decide, by decide⟩

/-- C4 amended: given valid base64url segments and a header decoding to a
JSON object, decoding succeeds exactly when the decoded payload bytes parse
as JSON; the payload may be any JSON value (no object requirement and no
further validation), and a payload JSON parse failure is returned as the
decode error. -/
theorem parts_decode_payload_json (h p s hb pb sb : Bytes) (H : HeaderMap)
    (hh : decode_base64_url h "header" = .ok hb)
    (hH : decode_json_object hb "header" = .ok H)
    (hp : decode_base64_url p "payload" = .ok pb)
    (hsg : decode_base64_url s "signature" = .ok sb) :
    (∀ P, decode_json_value pb "payload" = .ok P →
        CompactSerializedParts.decode ⟨h, p, s⟩ = .ok (⟨H, P⟩, sb))
    ∧ ∀ e, decode_json_value pb "payload" = .error e →
        CompactSerializedParts.decode ⟨h, p, s⟩ = .error e := by
  constructor
  · intro P hP
    have hm : Message.decode_header_payload h p = .ok ⟨H, P⟩ := by
      unfold Message.decode_header_payload
      rw [hh, ok_bind, hp, ok_bind, hH, ok_bind, hP, ok_bind]
    show (do
        let message ← Message.decode_header_payload h p
        let signature ← decode_base64_url s "signature"
        Except.ok (message, signature))
      = (.ok (⟨⟨H, P⟩, sb⟩) : Except Error (Message × Bytes))
    rw [hm, ok_bind, hsg, ok_bind]
  · intro e hPe
    have hm : Message.decode_header_payload h p = .error e := by
      unfold Message.decode_header_payload
      rw [hh, ok_bind, hp, ok_bind, hH, ok_bind, hPe, error_bind]
    show (do
        let message ← Message.decode_header_payload h p
        let signature ← decode_base64_url s "signature"
        Except.ok (message, signature))
      = (.error e : Except Error (Message × Bytes))
    rw [hm, error_bind]

/-- C4 amended witness: on the segments of `e30.bnVsbA.` the payload parses
as the JSON value `null` and decoding succeeds with it. -/
theorem parts_decode_payload_json_witness :
    (∀ P, decode_json_value [110, 117, 108, 108] "payload" = .ok P →
        CompactSerializedParts.decode ⟨[101, 51, 48], [98, 110, 86, 115, 98, 65], []⟩
          = .ok (⟨JsonObj.nil, P⟩, []))
    ∧ ∀ e, decode_json_value [110, 117, 108, 108] "payload" = .error e →
        CompactSerializedParts.decode ⟨[101, 51, 48], [98, 110, 86, 115, 98, 65], []⟩
          = .error e :=
  parts_decode_payload_json [101, 51, 48] [98, 110, 86, 115, 98, 65] []
    [123, 125] [110, 117, 108, 108] [] JsonObj.nil
    (by decide) (by decide) (by decide) (by decide)

/-! ### Serializer output byte range -/

theorem hexDigit_lt (d : Nat) (h : d < 16) : hexDigit d < 256 := by
  unfold hexDigit; split <;> omega

theorem utf8Bytes_lt (n : Nat) : ∀ b ∈ utf8Bytes n, b < 256 := by
  intro b hb
  unfold utf8Bytes at hb
  split at hb
  · simp only [List.mem_singleton] at hb; omega
  · split at hb
    · simp only [List.mem_cons, List.not_mem_nil, or_false] at hb
      rcases hb with rfl | rfl <;> omega
    · split at hb
      · simp only [List.mem_cons, List.not_mem_nil, or_false] at hb
        rcases hb with rfl | rfl | rfl <;> omega
      · simp only [List.mem_cons, List.not_mem_nil, or_false] at hb
        rcases hb with rfl | rfl | rfl | rfl <;> omega

theorem escapeChar_lt (c : Char) : ∀ b ∈ escapeChar c, b < 256 := by
  intro b hb
  unfold escapeChar at hb
  split at hb
  · simp only [List.mem_cons, List.not_mem_nil, or_false] at hb
    rcases hb with rfl | rfl <;> omega
  · split at hb
    · simp only [List.mem_cons, List.not_mem_nil, or_false] at hb
      rcases hb with rfl | rfl <;> omega
    · split at hb
      · simp only [List.mem_cons, List.not_mem_nil, or_false] at hb
        rcases hb with rfl | rfl <;> omega
      · split at hb
        · simp only [List.mem_cons, List.not_mem_nil, or_false] at hb
          rcases hb with rfl | rfl <;> omega
        · split at hb
          · simp only [List.mem_cons, List.not_mem_nil, or_false] at hb
            rcases hb with rfl | rfl <;> omega
          · split at hb
            · simp only [List.mem_cons, List.not_mem_nil, or_false] at hb
              rcases hb with rfl | rfl <;> omega
            · split at hb
              · simp only [List.mem_cons, List.not_mem_nil, or_false] at hb
                rcases hb with rfl | rfl <;> omega
              · split at hb
                · simp only [List.mem_cons, List.not_mem_nil, or_false] at hb
                  rcases hb with rfl | rfl | rfl | rfl | h5 | h6
                  · omega
                  · omega
                  · omega
                  · omega
                  · subst h5; exact hexDigit_lt _ (by omega)
                  · subst h6; exact hexDigit_lt _ (by omega)
                · exact utf8Bytes_lt _ b hb

theorem escapeString_lt (cs : List Char) : ∀ b ∈ escapeString cs, b < 256 := by
  intro b hb
  unfold escapeString at hb
  obtain ⟨l, hl, hbl⟩ := List.mem_flatten.mp hb
  obtain ⟨c, _, rfl⟩ := List.mem_map.mp hl
  exact escapeChar_lt c b hbl

theorem quotedString_lt (s : String) : ∀ b ∈ quotedString s, b < 256 := by
  intro b hb
  unfold quotedString at hb
  rcases List.mem_cons.mp hb with rfl | hb1
  · omega
  · rcases List.mem_append.mp hb1 with hb2 | hb2
    · exact escapeString_lt _ b hb2
    · simp only [List.mem_singleton] at hb2; omega

theorem natDigitsAux_lt (fuel : Nat) : ∀ (n : Nat) (acc : List Nat),
    (∀ b ∈ acc, b < 256) → ∀ b ∈ natDigitsAux fuel n acc, b < 256 := by
  induction fuel with
  | zero => intro n acc hacc; exact hacc
  | succ f ih =>
    intro n acc hacc b hb
    unfold natDigitsAux at hb
    split at hb
    · rcases List.mem_cons.mp hb with rfl | h1
      · omega
      · exact hacc b h1
    · refine ih (n / 10) _ ?_ b hb
      intro x hx
      rcases List.mem_cons.mp hx with rfl | h1
      · omega
      · exact hacc x h1

theorem intSerialize_lt (n : Int) : ∀ b ∈ intSerialize n, b < 256 := by
  intro b hb
  unfold intSerialize at hb
  split at hb
  · rcases List.mem_cons.mp hb with rfl | h1
    · omega
    · exact natDigitsAux_lt _ _ _ (by intro x hx; cases hx) b h1
  · exact natDigitsAux_lt _ _ _ (by intro x hx; cases hx) b hb

theorem jsonSerialize_lt (j : Json) : ∀ b ∈ jsonSerialize j, b < 256 := by
  refine jsonSerialize.induct
    (fun j => ∀ b ∈ jsonSerialize j, b < 256)
    (fun kvs => ∀ b ∈ serializeObjBody kvs, b < 256)
    (fun xs => ∀ b ∈ serializeArrBody xs, b < 256)
    (by decide) (by decide) (by decide)
    (fun n => intSerialize_lt n)
    (fun s => quotedString_lt s)
    ?_ ?_ (by simp [serializeArrBody]) ?_ ?_ (by simp [serializeObjBody]) ?_ ?_ j
  · intro xs ih b hb
    replace hb : b ∈ 91 :: (serializeArrBody xs ++ [93]) := hb
    rcases List.mem_cons.mp hb with rfl | hb1
    · omega
    · rcases List.mem_append.mp hb1 with hb2 | hb2
      · exact ih b hb2
      · simp only [List.mem_singleton] at hb2; omega
  · intro kvs ih b hb
    replace hb : b ∈ 123 :: (serializeObjBody kvs ++ [125]) := hb
    rcases List.mem_cons.mp hb with rfl | hb1
    · omega
    · rcases List.mem_append.mp hb1 with hb2 | hb2
      · exact ih b hb2
      · simp only [List.mem_singleton] at hb2; omega
  · intro x ih b hb
    exact ih b hb
  · intro x y tl ihx ihtl b hb
    replace hb : b ∈ jsonSerialize x ++ 44 :: serializeArrBody (.cons y tl) := hb
    rcases List.mem_append.mp hb with hb1 | hb1
    · exact ihx b hb1
    · rcases List.mem_cons.mp hb1 with rfl | hb2
      · omega
      · exact ihtl b hb2
  · intro k v ihv b hb
    replace hb : b ∈ quotedString k ++ 58 :: jsonSerialize v := hb
    rcases List.mem_append.mp hb with hb1 | hb1
    · exact quotedString_lt k b hb1
    · rcases List.mem_cons.mp hb1 with rfl | hb2
      · omega
      · exact ihv b hb2
  · intro k v k1 v1 tl ihv ihtl b hb
    replace hb : b ∈ (quotedString k ++ 58 :: jsonSerialize v)
        ++ 44 :: serializeObjBody (.cons k1 v1 tl) := hb
    rcases List.mem_append.mp hb with hb1 | hb1
    · rcases List.mem_append.mp hb1 with hb2 | hb2
      · exact quotedString_lt k b hb2
      · rcases List.mem_cons.mp hb2 with rfl | hb3
        · omega
        · exact ihv b hb3
    · rcases List.mem_cons.mp hb1 with rfl | hb2
      · omega
      · exact ihtl b hb2

/-! ### The encode/decode round trip -/

/-- C6 counterexample: at the empty header and null payload (both of which
survive the JSON round trip), applying `decode` to the buffer produced by
`encode` fails, because `encode` emits only the two leading segments and
`decode` demands a third, signature, segment. -/
theorem decode_encode_missing_signature_cex :
    decode_json_object (jsonSerialize (.obj JsonObj.nil)) "header" = .ok JsonObj.nil
    ∧ decode_json_value (jsonSerialize Json.null) "payload" = .ok Json.null
    ∧ decode (Message.encode ⟨JsonObj.nil, Json.null⟩).data
      = .error (Error.invalid_message "encoded message does not contain a signature") :=
  ⟨by decide, by decide, by decide⟩

/-- C6 amended: for every header `H` and payload `P` that survive the JSON
round trip, decoding the header and payload segments of `encode (H, P)`
through `Message::decode_header_payload` yields back exactly `H` and `P`;
the top-level `decode` is not applicable to `encode`'s output because the
encoded message carries no signature segment. -/
theorem decode_header_payload_encode (H : HeaderMap) (P : Json)
    (hH : decode_json_object (jsonSerialize (.obj H)) "header" = .ok H)
    (hP : decode_json_value (jsonSerialize P) "payload" = .ok P) :
    Message.decode_header_payload (Message.encode ⟨H, P⟩).header
        (Message.encode ⟨H, P⟩).payload
      = .ok ⟨H, P⟩ := by
  rw [encode_header_eq, encode_payload_eq]
  show Message.decode_header_payload (b64encode (jsonSerialize (.obj H)))
      (b64encode (jsonSerialize P)) = .ok ⟨H, P⟩
  have h1 : decode_base64_url (b64encode (jsonSerialize (.obj H))) "header"
      = .ok (jsonSerialize (.obj H)) := by
    unfold decode_base64_url
    rw [b64decode_b64encode _ (jsonSerialize_lt _)]
  have h2 : decode_base64_url (b64encode (jsonSerialize P)) "payload"
      = .ok (jsonSerialize P) := by
    unfold decode_base64_url
    rw [b64decode_b64encode _ (jsonSerialize_lt _)]
  unfold Message.decode_header_payload
  rw [h1, ok_bind, h2, ok_bind, hH, ok_bind, hP, ok_bind]

/-- C6 amended witness: the empty header and null payload round-trip
through encode and decode_header_payload. -/
theorem decode_header_payload_encode_witness :
    Message.decode_header_payload (Message.encode ⟨JsonObj.nil, Json.null⟩).header
        (Message.encode ⟨JsonObj.nil, Json.null⟩).payload
      = .ok ⟨JsonObj.nil, Json.null⟩ :=
  decode_header_payload_encode JsonObj.nil Json.null (by decide) (by decide)

end Jws
